import Mathlib

/-!
Shallow embedding of `compute_metrics` from `scripts/fetch_alpaca_data.py`
(alpaca-portfolio-tracker).

The function consumes a portfolio-history object with two array fields,
`equity` and `timestamp`, and produces the record
`{annualizedReturn, sharpeRatio, totalReturn}`.

Modelling conventions:
* Array elements are `PyVal`: `null` (Python `None`), a numeric value
  (exact rational, the idealization of a Python int/float), or a
  non-numeric value on which Python's `float(x)` / `int(x)` coercions
  raise (`TypeError`/`ValueError`).  Arithmetic is exact rational/real
  arithmetic; in this idealization every quotient of rationals with
  nonzero denominator is a finite number, so the source's
  `math.isfinite` filters and the final `float(x) if math.isfinite(x)
  else 0.0` guards are identity maps and are modelled as such.
* A missing `history`, a missing field, or a field that is not a list
  all fail the source's `isinstance(..., list)` guard; they are modelled
  by an `Option` being `none`.
* An uncaught Python exception is modelled as `Except.error ()`.
* `math.pow` / `math.sqrt` on positive real arguments are `Real.rpow` /
  `Real.sqrt`.
-/

/-- An element of the `equity`/`timestamp` arrays: Python `None`, a numeric
value (idealized as an exact rational), or a non-numeric value on which
`float()`/`int()` raise. -/
inductive PyVal where
  | null : PyVal
  | num : ℚ → PyVal
  | nonNum : PyVal
deriving DecidableEq

/-- The `x is not None` test of the list comprehensions. -/
def PyVal.isNull : PyVal → Bool
  | .null => true
  | _ => false

/-- Python `float(x)`: the numeric value, or a raised exception. -/
def pyFloat : PyVal → Except Unit ℚ
  | .num q => .ok q
  | _ => .error ()

/-- Python `int(x)` truncates toward zero. -/
def truncZ (q : ℚ) : ℤ := if 0 ≤ q then ⌊q⌋ else ⌈q⌉

/-- Python `int(x)` on an array element: truncation, or a raised exception. -/
def pyInt : PyVal → Except Unit ℤ
  | .num q => .ok (truncZ q)
  | _ => .error ()

/-- Left-to-right effectful map: the first failing coercion aborts the whole
list, as a raising Python list comprehension does. -/
def mapExcept {α β : Type} (f : α → Except Unit β) : List α → Except Unit (List β)
  | [] => .ok []
  | v :: vs => do
    let b ← f v
    let rest ← mapExcept f vs
    .ok (b :: rest)

/-- `[float(x) for x in l if x is not None]`. -/
def floatList (l : List PyVal) : Except Unit (List ℚ) :=
  mapExcept pyFloat (l.filter fun v => !v.isNull)

/-- `[int(x) for x in l if x is not None]`. -/
def intList (l : List PyVal) : Except Unit (List ℤ) :=
  mapExcept pyInt (l.filter fun v => !v.isNull)

/-- The history object passed to `compute_metrics`.  A field is `none` when
the source's `not history or not isinstance(history.get(...), list)` guard
fails for it (missing object, missing key, or non-list value). -/
structure History where
  equity : Option (List PyVal)
  timestamp : Option (List PyVal)

/-- The result record `{annualizedReturn, sharpeRatio, totalReturn}`. -/
structure MetricsResult where
  annualizedReturn : ℝ
  sharpeRatio : ℝ
  totalReturn : ℝ

/-- The all-zero result returned on every degenerate input. -/
noncomputable def zeroMetrics : MetricsResult :=
  { annualizedReturn := 0.0, sharpeRatio := 0.0, totalReturn := 0.0 }

/-- `equities = raw_equity[:n]; timestamps = raw_timestamps[:n];
zip(equities, timestamps)` with `n = min(len(raw_equity), len(raw_timestamps))`. -/
def alignedOf (re : List ℚ) (rt : List ℤ) : List (ℚ × ℤ) :=
  (re.take (min re.length rt.length)).zip (rt.take (min re.length rt.length))

/-- `pairs = [(eq, ts) for eq, ts in zip(equities, timestamps) if eq > 0]`. -/
def pairsOf (re : List ℚ) (rt : List ℤ) : List (ℚ × ℤ) :=
  (alignedOf re rt).filter fun p => decide (0 < p.1)

/-- The surviving equities: `equities, timestamps = zip(*pairs)`, first row. -/
def survEq (re : List ℚ) (rt : List ℤ) : List ℚ :=
  (pairsOf re rt).map Prod.fst

/-- The surviving timestamps: `equities, timestamps = zip(*pairs)`, second row. -/
def survTs (re : List ℚ) (rt : List ℤ) : List ℤ :=
  (pairsOf re rt).map Prod.snd

/-- Consecutive daily returns `(curr - prev) / prev` over the post-filter
equities (`zip(equities[:-1], equities[1:])`).  Over exact rationals every
such quotient is finite, so the source's `math.isfinite(r)` filter keeps
every element and is omitted. -/
def returnsOf (re : List ℚ) (rt : List ℤ) : List ℚ :=
  ((survEq re rt).zip (survEq re rt).tail).map fun p => (p.2 - p.1) / p.1

/-- `total_return = (last_equity / first_equity) - 1`. -/
def totalReturnQ (re : List ℚ) (rt : List ℤ) : ℚ :=
  (survEq re rt).getLastI / (survEq re rt).headI - 1

/-- `days = (timestamps[-1] - timestamps[0]) / 86400.0`. -/
def daysQ (re : List ℚ) (rt : List ℤ) : ℚ :=
  (((survTs re rt).getLastI - (survTs re rt).headI : ℤ) : ℚ) / 86400

/-- `years = days / 365.25`. -/
def yearsQ (re : List ℚ) (rt : List ℤ) : ℚ :=
  daysQ re rt / (365.25 : ℚ)

/-- `annualized_return = 0.0; if days > 0: years = days / 365.25;
if years > 0: annualized_return = math.pow(last_equity / first_equity, 1 / years) - 1`. -/
noncomputable def annualizedR (re : List ℚ) (rt : List ℤ) : ℝ :=
  if 0 < daysQ re rt then
    if 0 < yearsQ re rt then
      (((survEq re rt).getLastI / (survEq re rt).headI : ℚ) : ℝ) ^
        ((1 : ℝ) / ((yearsQ re rt : ℚ) : ℝ)) - 1
    else 0
  else 0

/-- `mean_return = sum(returns) / len(returns)`. -/
def meanQ (re : List ℚ) (rt : List ℤ) : ℚ :=
  (returnsOf re rt).sum / ((returnsOf re rt).length : ℚ)

/-- `variance = sum((r - mean_return) ** 2 for r in returns) / (len(returns) - 1)`. -/
def varianceQ (re : List ℚ) (rt : List ℤ) : ℚ :=
  ((returnsOf re rt).map fun r => (r - meanQ re rt) ^ 2).sum /
    (((returnsOf re rt).length : ℚ) - 1)

/-- `std_dev = math.sqrt(variance) if variance > 0 else 0.0`. -/
noncomputable def stdDevR (re : List ℚ) (rt : List ℤ) : ℝ :=
  if 0 < varianceQ re rt then Real.sqrt ((varianceQ re rt : ℚ) : ℝ) else 0

/-- `sharpe_ratio = (mean_return / std_dev) * math.sqrt(252) if std_dev > 0 else 0.0`. -/
noncomputable def sharpeR (re : List ℚ) (rt : List ℤ) : ℝ :=
  if 0 < stdDevR re rt then
    ((meanQ re rt : ℚ) : ℝ) / stdDevR re rt * Real.sqrt 252
  else 0

/-- The numeric core of `compute_metrics`, applied to the null-dropped,
coerced arrays `raw_equity` / `raw_timestamps`.  The three `if`s are the
source's three early `return`s; in exact real arithmetic every computed
value is finite, so the source's final `float(x) if math.isfinite(x) else
0.0` guards are the identity. -/
noncomputable def computeMetricsNum (re : List ℚ) (rt : List ℤ) : MetricsResult :=
  if min re.length rt.length < 2 then zeroMetrics
  else if (pairsOf re rt).length < 2 then zeroMetrics
  else if (returnsOf re rt).length < 2 then zeroMetrics
  else
    { annualizedReturn := annualizedR re rt
      sharpeRatio := sharpeR re rt
      totalReturn := ((totalReturnQ re rt : ℚ) : ℝ) }

/-- `compute_metrics(history)`.  The guard
`if not history or not isinstance(history.get("equity"), list) or not
isinstance(history.get("timestamp"), list)` is the outer match; the two
list comprehensions run next (left to right, each able to raise), and the
rest of the function is `computeMetricsNum`. -/
noncomputable def compute_metrics (h : History) : Except Unit MetricsResult :=
  match h.equity, h.timestamp with
  | some el, some tl => do
    let re ← floatList el
    let rt ← intList tl
    pure (computeMetricsNum re rt)
  | _, _ => .ok zeroMetrics

/-! ### Basic structural lemmas about the pipeline -/

/-- Any of the three early-return gates yields the all-zero result. -/
theorem metrics_zero_of_gate (re : List ℚ) (rt : List ℤ)
    (h : min re.length rt.length < 2 ∨ (pairsOf re rt).length < 2 ∨
      (returnsOf re rt).length < 2) :
    computeMetricsNum re rt = zeroMetrics := by
  unfold computeMetricsNum
  rcases h with h | h | h
  · rw [if_pos h]
  · by_cases h1 : min re.length rt.length < 2
    · rw [if_pos h1]
    · rw [if_neg h1, if_pos h]
  · by_cases h1 : min re.length rt.length < 2
    · rw [if_pos h1]
    · rw [if_neg h1]
      by_cases h2 : (pairsOf re rt).length < 2
      · rw [if_pos h2]
      · rw [if_neg h2, if_pos h]

/-- When all three gates pass, the result is assembled from the formulas. -/
theorem metrics_of_pass (re : List ℚ) (rt : List ℤ)
    (h1 : 2 ≤ min re.length rt.length) (h2 : 2 ≤ (pairsOf re rt).length)
    (h3 : 2 ≤ (returnsOf re rt).length) :
    computeMetricsNum re rt =
      { annualizedReturn := annualizedR re rt
        sharpeRatio := sharpeR re rt
        totalReturn := ((totalReturnQ re rt : ℚ) : ℝ) } := by
  unfold computeMetricsNum
  rw [if_neg (not_lt.mpr h1), if_neg (not_lt.mpr h2), if_neg (not_lt.mpr h3)]

/-- Every surviving equity is strictly positive: it passed the `eq > 0` filter. -/
theorem survEq_pos (re : List ℚ) (rt : List ℤ) {x : ℚ} (hx : x ∈ survEq re rt) :
    0 < x := by
  simp only [survEq, List.mem_map] at hx
  obtain ⟨p, hp, rfl⟩ := hx
  simp only [pairsOf, List.mem_filter, decide_eq_true_eq] at hp
  exact hp.2

/-- Every surviving equity comes from the raw equity array. -/
theorem survEq_subset (re : List ℚ) (rt : List ℤ) {x : ℚ} (hx : x ∈ survEq re rt) :
    x ∈ re := by
  simp only [survEq, List.mem_map] at hx
  obtain ⟨p, hp, rfl⟩ := hx
  have hal : p ∈ alignedOf re rt := List.mem_of_mem_filter hp
  obtain ⟨a, b⟩ := p
  exact List.mem_of_mem_take (List.of_mem_zip hal).1

theorem headI_mem {α : Type} [Inhabited α] {l : List α} (h : l ≠ []) : l.headI ∈ l := by
  cases l with
  | nil => exact absurd rfl h
  | cons a t => exact List.mem_cons_self a t

theorem getLastI_mem {α : Type} [Inhabited α] {l : List α} (h : l ≠ []) :
    l.getLastI ∈ l := by
  rw [List.getLastI_eq_getLast?, List.getLast?_eq_getLast l h]
  exact List.getLast_mem h

theorem survEq_length (re : List ℚ) (rt : List ℤ) :
    (survEq re rt).length = (pairsOf re rt).length := by
  simp [survEq]

theorem survTs_length (re : List ℚ) (rt : List ℤ) :
    (survTs re rt).length = (pairsOf re rt).length := by
  simp [survTs]

/-- There is one daily return per consecutive pair of surviving equities. -/
theorem returnsOf_length (re : List ℚ) (rt : List ℤ) :
    (returnsOf re rt).length = (survEq re rt).length - 1 := by
  simp only [returnsOf, List.length_map, List.length_zip, List.length_tail]
  omega

/-- If every raw equity is non-positive, the `eq > 0` filter keeps nothing. -/
theorem pairsOf_eq_nil_of_nonpos (re : List ℚ) (rt : List ℤ)
    (h : ∀ x ∈ re, x ≤ 0) : pairsOf re rt = [] := by
  simp only [pairsOf, List.filter_eq_nil_iff, decide_eq_true_eq]
  intro p hp
  obtain ⟨a, b⟩ := p
  have ha : a ∈ re := List.mem_of_mem_take (List.of_mem_zip hp).1
  exact not_lt.mpr (h a ha)

/-! ### Coercion of well-typed (null-or-numeric) arrays never raises -/

/-- The numeric payload of an element, if any. -/
def PyVal.ratVal : PyVal → Option ℚ
  | .num q => some q
  | _ => none

/-- The `int()`-coerced payload of an element, if any. -/
def PyVal.intVal : PyVal → Option ℤ
  | .num q => some (truncZ q)
  | _ => none

/-- An element on which the coercions cannot raise after null-filtering:
`None` or a numeric value. -/
def numOrNull : PyVal → Bool
  | .nonNum => false
  | _ => true

/-- The value of `raw_equity` on an array with no non-numeric element. -/
def ratsOf (l : List PyVal) : List ℚ := l.filterMap PyVal.ratVal

/-- The value of `raw_timestamps` on an array with no non-numeric element. -/
def intsOf (l : List PyVal) : List ℤ := l.filterMap PyVal.intVal

theorem floatList_ok (l : List PyVal) (h : l.all numOrNull = true) :
    floatList l = .ok (ratsOf l) := by
  induction l with
  | nil => rfl
  | cons v t ih =>
    simp only [List.all_cons, Bool.and_eq_true] at h
    have ht := ih h.2
    cases v with
    | null =>
      simpa [floatList, ratsOf, PyVal.isNull, PyVal.ratVal, List.filter_cons] using ht
    | num q =>
      simp only [floatList, List.filter_cons, PyVal.isNull, Bool.not_false, if_pos,
        ratsOf, List.filterMap_cons, PyVal.ratVal] at ht ⊢
      simp only [mapExcept, pyFloat, ht]
      rfl
    | nonNum =>
      simp [numOrNull] at h

theorem intList_ok (l : List PyVal) (h : l.all numOrNull = true) :
    intList l = .ok (intsOf l) := by
  induction l with
  | nil => rfl
  | cons v t ih =>
    simp only [List.all_cons, Bool.and_eq_true] at h
    have ht := ih h.2
    cases v with
    | null =>
      simpa [intList, intsOf, PyVal.isNull, PyVal.intVal, List.filter_cons] using ht
    | num q =>
      simp only [intList, List.filter_cons, PyVal.isNull, Bool.not_false, if_pos,
        intsOf, List.filterMap_cons, PyVal.intVal] at ht ⊢
      simp only [mapExcept, pyInt, ht]
      rfl
    | nonNum =>
      simp [numOrNull] at h

/-- On a history whose arrays hold only nulls and numbers, `compute_metrics`
reduces to the numeric core on the null-dropped, coerced arrays. -/
theorem compute_metrics_ok (el tl : List PyVal)
    (h1 : el.all numOrNull = true) (h2 : tl.all numOrNull = true) :
    compute_metrics ⟨some el, some tl⟩ =
      .ok (computeMetricsNum (ratsOf el) (intsOf tl)) := by
  simp only [compute_metrics, floatList_ok el h1, intList_ok tl h2]
  rfl

/-! ### Claim theorems -/

/-- C3: whenever any sanitization gate fails — fewer than 2 aligned samples
after null-dropping, fewer than 2 surviving pairs after the `equity > 0`
filter, or fewer than 2 finite daily returns — `compute_metrics` returns
exactly the all-zero result; in particular this holds whenever every equity
value is non-positive. -/
theorem C3_gate_all_zero (re : List ℚ) (rt : List ℤ)
    (h : min re.length rt.length < 2 ∨ (pairsOf re rt).length < 2 ∨
      (returnsOf re rt).length < 2 ∨ ∀ x ∈ re, x ≤ 0) :
    computeMetricsNum re rt = zeroMetrics := by
  rcases h with h | h | h | h
  · exact metrics_zero_of_gate re rt (Or.inl h)
  · exact metrics_zero_of_gate re rt (Or.inr (Or.inl h))
  · exact metrics_zero_of_gate re rt (Or.inr (Or.inr h))
  · refine metrics_zero_of_gate re rt (Or.inr (Or.inl ?_))
    rw [pairsOf_eq_nil_of_nonpos re rt h]
    decide

theorem C3_gate_all_zero_witness :
    (∀ x ∈ ([-5, -7, 0] : List ℚ), x ≤ 0) ∧
      computeMetricsNum [-5, -7, 0] [0, 1, 2] = zeroMetrics :=
  ⟨by decide, C3_gate_all_zero _ _ (Or.inr (Or.inr (Or.inr (by decide))))⟩

/-- Scenario A of the spec: equities `[100, 110]`, one year apart. -/
def histA : History :=
  ⟨some [PyVal.num 100, PyVal.num 110], some [PyVal.num 0, PyVal.num 31536000]⟩

/-- C2 counterexample: on equities `[100, 110]` with timestamps
`[0, 86400*365]` the code takes the fewer-than-2-finite-returns early return
and produces the all-zero result, so `totalReturn` is `0`, not the claimed
`0.10`: the gate zeroes all three metrics, not only `sharpeRatio`. -/
theorem C2_counterexample :
    compute_metrics histA = .ok zeroMetrics ∧ zeroMetrics.totalReturn ≠ (1 : ℝ) / 10 := by
  refine ⟨rfl, ?_⟩
  show (0.0 : ℝ) ≠ 1 / 10
  norm_num

/-- C2 amended: when the surviving series yields fewer than 2 finite daily
returns (in particular exactly one), the early return zeroes all three
metrics — `totalReturn` and `annualizedReturn` are not computed. -/
theorem C2_single_return_all_zero (re : List ℚ) (rt : List ℤ)
    (h : (returnsOf re rt).length < 2) :
    computeMetricsNum re rt = zeroMetrics :=
  metrics_zero_of_gate re rt (Or.inr (Or.inr h))

theorem C2_single_return_all_zero_witness :
    (returnsOf [100, 110] [0, 31536000]).length < 2 ∧
      computeMetricsNum [100, 110] [0, 31536000] = zeroMetrics :=
  ⟨by decide, C2_single_return_all_zero _ _ (by decide)⟩

/-- C5: when all sanitization gates pass, `totalReturn` is
`lastEquity / firstEquity - 1` over the surviving equity sequence. -/
theorem C5_total_return (re : List ℚ) (rt : List ℤ)
    (h1 : 2 ≤ min re.length rt.length) (h2 : 2 ≤ (pairsOf re rt).length)
    (h3 : 2 ≤ (returnsOf re rt).length) :
    (computeMetricsNum re rt).totalReturn =
      (((survEq re rt).getLastI / (survEq re rt).headI - 1 : ℚ) : ℝ) := by
  rw [metrics_of_pass re rt h1 h2 h3]
  rfl

theorem C5_total_return_witness :
    (2 ≤ min ([100, 110, 121] : List ℚ).length ([0, 86400, 172800] : List ℤ).length ∧
      2 ≤ (pairsOf [100, 110, 121] [0, 86400, 172800]).length ∧
      2 ≤ (returnsOf [100, 110, 121] [0, 86400, 172800]).length) ∧
    (computeMetricsNum [100, 110, 121] [0, 86400, 172800]).totalReturn =
      (((survEq [100, 110, 121] [0, 86400, 172800]).getLastI /
        (survEq [100, 110, 121] [0, 86400, 172800]).headI - 1 : ℚ) : ℝ) :=
  ⟨⟨by decide, by decide, by decide⟩,
    C5_total_return _ _ (by decide) (by decide) (by decide)⟩

/-- C8: every consecutive pair feeding a daily-return division has a strictly
positive denominator (its first component), because the `equity > 0` filter
runs before the return computation. -/
theorem C8_positive_denominator (re : List ℚ) (rt : List ℤ) (p : ℚ × ℚ)
    (hp : p ∈ (survEq re rt).zip (survEq re rt).tail) : 0 < p.1 := by
  obtain ⟨a, b⟩ := p
  exact survEq_pos re rt (List.of_mem_zip hp).1

theorem C8_positive_denominator_witness :
    ((100, 110) ∈ (survEq [100, 110] [0, 86400]).zip (survEq [100, 110] [0, 86400]).tail) ∧
      (0 : ℚ) < (100, (110 : ℚ)).1 :=
  ⟨by decide, C8_positive_denominator [100, 110] [0, 86400] (100, 110) (by decide)⟩

/-- C6: when all sanitization gates pass, `annualizedReturn` is `0` whenever
the last surviving timestamp is at most the first (i.e. `days ≤ 0`), and
otherwise equals `(lastEquity/firstEquity)^(1/years) - 1` with
`days = (lastTimestamp - firstTimestamp)/86400` and `years = days/365.25`. -/
theorem C6_annualized_return (re : List ℚ) (rt : List ℤ)
    (h1 : 2 ≤ min re.length rt.length) (h2 : 2 ≤ (pairsOf re rt).length)
    (h3 : 2 ≤ (returnsOf re rt).length) :
    ((survTs re rt).getLastI ≤ (survTs re rt).headI →
      (computeMetricsNum re rt).annualizedReturn = 0) ∧
    ((survTs re rt).headI < (survTs re rt).getLastI →
      (computeMetricsNum re rt).annualizedReturn =
        (((survEq re rt).getLastI / (survEq re rt).headI : ℚ) : ℝ) ^
          ((1 : ℝ) /
            (((((survTs re rt).getLastI - (survTs re rt).headI : ℤ) : ℚ) / 86400 /
              (365.25 : ℚ) : ℚ) : ℝ)) - 1) := by
  rw [metrics_of_pass re rt h1 h2 h3]
  constructor
  · intro hts
    show annualizedR re rt = 0
    have hd : daysQ re rt ≤ 0 := by
      apply div_nonpos_of_nonpos_of_nonneg _ (by norm_num)
      exact_mod_cast sub_nonpos.mpr hts
    rw [annualizedR, if_neg (not_lt.mpr hd)]
  · intro hts
    show annualizedR re rt = _
    have hd : 0 < daysQ re rt := by
      apply div_pos _ (by norm_num)
      exact_mod_cast sub_pos.mpr hts
    have hy : 0 < yearsQ re rt := div_pos hd (by norm_num)
    rw [annualizedR, if_pos hd, if_pos hy]
    rfl

theorem C6_annualized_return_witness :
    (2 ≤ min ([100, 110, 121] : List ℚ).length ([0, 86400, 172800] : List ℤ).length ∧
      2 ≤ (pairsOf [100, 110, 121] [0, 86400, 172800]).length ∧
      2 ≤ (returnsOf [100, 110, 121] [0, 86400, 172800]).length) ∧
    ((survTs [100, 110, 121] [0, 86400, 172800]).headI <
        (survTs [100, 110, 121] [0, 86400, 172800]).getLastI →
      (computeMetricsNum [100, 110, 121] [0, 86400, 172800]).annualizedReturn =
        (((survEq [100, 110, 121] [0, 86400, 172800]).getLastI /
          (survEq [100, 110, 121] [0, 86400, 172800]).headI : ℚ) : ℝ) ^
          ((1 : ℝ) /
            (((((survTs [100, 110, 121] [0, 86400, 172800]).getLastI -
              (survTs [100, 110, 121] [0, 86400, 172800]).headI : ℤ) : ℚ) / 86400 /
              (365.25 : ℚ) : ℚ) : ℝ)) - 1) :=
  ⟨⟨by decide, by decide, by decide⟩,
    (C6_annualized_return _ _ (by decide) (by decide) (by decide)).2⟩

/-- C7: when all sanitization gates pass, `sharpeRatio` is
`(mean / sqrt variance) * sqrt 252` (Bessel-corrected sample variance) when
the variance is strictly positive, and `0` otherwise; and a constant equity
series yields the all-zero result. -/
theorem C7_sharpe_ratio (re : List ℚ) (rt : List ℤ)
    (h1 : 2 ≤ min re.length rt.length) (h2 : 2 ≤ (pairsOf re rt).length)
    (h3 : 2 ≤ (returnsOf re rt).length) :
    (0 < varianceQ re rt →
      (computeMetricsNum re rt).sharpeRatio =
        ((meanQ re rt : ℚ) : ℝ) / Real.sqrt ((varianceQ re rt : ℚ) : ℝ) *
          Real.sqrt 252) ∧
    (varianceQ re rt ≤ 0 → (computeMetricsNum re rt).sharpeRatio = 0) ∧
    ((∀ x ∈ re, x = re.headI) → computeMetricsNum re rt = zeroMetrics) := by
  rw [metrics_of_pass re rt h1 h2 h3]
  refine ⟨?_, ?_, ?_⟩
  · intro hv
    show sharpeR re rt = _
    have hstd : stdDevR re rt = Real.sqrt ((varianceQ re rt : ℚ) : ℝ) := by
      rw [stdDevR, if_pos hv]
    have hstdpos : 0 < stdDevR re rt := by
      rw [hstd]
      exact Real.sqrt_pos.mpr (by exact_mod_cast hv)
    rw [sharpeR, if_pos hstdpos, hstd]
  · intro hv
    show sharpeR re rt = 0
    have hstd : stdDevR re rt = 0 := by rw [stdDevR, if_neg (not_lt.mpr hv)]
    rw [sharpeR, hstd, if_neg (lt_irrefl 0)]
  · intro hconst
    have hne : survEq re rt ≠ [] := by
      apply List.ne_nil_of_length_pos
      rw [survEq_length]
      omega
    have hmemc : ∀ x ∈ survEq re rt, x = re.headI := fun x hx =>
      hconst x (survEq_subset re rt hx)
    have hhead : (survEq re rt).headI = re.headI := hmemc _ (headI_mem hne)
    have hlast : (survEq re rt).getLastI = re.headI := hmemc _ (getLastI_mem hne)
    have hcpos : 0 < re.headI := by
      rw [← hhead]
      exact survEq_pos re rt (headI_mem hne)
    have hret0 : ∀ r ∈ returnsOf re rt, r = 0 := by
      intro r hr
      simp only [returnsOf, List.mem_map] at hr
      obtain ⟨p, hp, rfl⟩ := hr
      obtain ⟨a, b⟩ := p
      have ha := (List.of_mem_zip hp).1
      have hb := List.mem_of_mem_tail (List.of_mem_zip hp).2
      rw [hmemc a ha, hmemc b hb]
      simp
    have hmean : meanQ re rt = 0 := by
      rw [meanQ, List.sum_eq_zero hret0, zero_div]
    have hvar : varianceQ re rt = 0 := by
      rw [varianceQ]
      have hz : ((returnsOf re rt).map fun r => (r - meanQ re rt) ^ 2).sum = 0 := by
        apply List.sum_eq_zero
        intro y hy
        simp only [List.mem_map] at hy
        obtain ⟨r, hr, rfl⟩ := hy
        rw [hret0 r hr, hmean]
        simp
      rw [hz, zero_div]
    have hsharpe : sharpeR re rt = 0 := by
      have hstd : stdDevR re rt = 0 := by
        rw [stdDevR, if_neg (by rw [hvar]; exact lt_irrefl 0)]
      rw [sharpeR, hstd, if_neg (lt_irrefl 0)]
    have htotal : totalReturnQ re rt = 0 := by
      rw [totalReturnQ, hhead, hlast, div_self (ne_of_gt hcpos), sub_self]
    have hann : annualizedR re rt = 0 := by
      rw [annualizedR]
      by_cases hd : 0 < daysQ re rt
      · rw [if_pos hd]
        by_cases hy : 0 < yearsQ re rt
        · rw [if_pos hy, hhead, hlast, div_self (ne_of_gt hcpos)]
          rw [Rat.cast_one, Real.one_rpow, sub_self]
        · rw [if_neg hy]
      · rw [if_neg hd]
    rw [hann, hsharpe, htotal]
    show _ = zeroMetrics
    simp only [zeroMetrics, MetricsResult.mk.injEq]
    norm_num

theorem C7_sharpe_ratio_witness :
    (2 ≤ min ([100, 100, 100] : List ℚ).length ([0, 86400, 172800] : List ℤ).length ∧
      2 ≤ (pairsOf [100, 100, 100] [0, 86400, 172800]).length ∧
      2 ≤ (returnsOf [100, 100, 100] [0, 86400, 172800]).length ∧
      ∀ x ∈ ([100, 100, 100] : List ℚ), x = ([100, 100, 100] : List ℚ).headI) ∧
    computeMetricsNum [100, 100, 100] [0, 86400, 172800] = zeroMetrics :=
  ⟨⟨by decide, by decide, by decide, by decide⟩,
    (C7_sharpe_ratio _ _ (by decide) (by decide) (by decide)).2.2 (by decide)⟩

/-- C1 counterexample: `compute_metrics` does not return a result on every
input — on an equity array containing a non-numeric element the `float(x)`
coercion raises, and the exception propagates. -/
theorem C1_counterexample :
    compute_metrics ⟨some [PyVal.nonNum], some [PyVal.num 0]⟩ = .error () := rfl

/-- C1 amended: on histories whose array elements are all null or numeric,
`compute_metrics` never raises and returns a `MetricsResult`; every
degenerate such input (a failed gate) degrades to the all-zero result, and a
missing or non-list `equity`/`timestamp` field yields the all-zero result.
A non-numeric element, however, makes the coercion raise. -/
theorem C1_no_raise_on_well_typed (el tl : List PyVal)
    (h1 : el.all numOrNull = true) (h2 : tl.all numOrNull = true) :
    compute_metrics ⟨some el, some tl⟩ =
      .ok (computeMetricsNum (ratsOf el) (intsOf tl)) ∧
    (min (ratsOf el).length (intsOf tl).length < 2 ∨
      (pairsOf (ratsOf el) (intsOf tl)).length < 2 ∨
      (returnsOf (ratsOf el) (intsOf tl)).length < 2 →
      compute_metrics ⟨some el, some tl⟩ = .ok zeroMetrics) ∧
    compute_metrics ⟨none, some tl⟩ = .ok zeroMetrics ∧
    compute_metrics ⟨some el, none⟩ = .ok zeroMetrics ∧
    compute_metrics ⟨none, none⟩ = .ok zeroMetrics := by
  refine ⟨compute_metrics_ok el tl h1 h2, ?_, rfl, rfl, rfl⟩
  intro hg
  rw [compute_metrics_ok el tl h1 h2, metrics_zero_of_gate _ _ hg]

theorem C1_no_raise_on_well_typed_witness :
    ([PyVal.num 1, PyVal.null].all numOrNull = true ∧
      [PyVal.num 0].all numOrNull = true) ∧
    compute_metrics ⟨some [PyVal.num 1, PyVal.null], some [PyVal.num 0]⟩ =
      .ok (computeMetricsNum (ratsOf [PyVal.num 1, PyVal.null])
        (intsOf [PyVal.num 0])) :=
  ⟨⟨by decide, by decide⟩,
    (C1_no_raise_on_well_typed _ _ (by decide) (by decide)).1⟩

/-- C9 counterexample: the returned record is not always defined — on an
input with a non-numeric equity element `compute_metrics` raises instead of
returning any record at all. -/
theorem C9_counterexample :
    compute_metrics ⟨some [PyVal.num 1, PyVal.nonNum], some [PyVal.num 0, PyVal.num 1]⟩ =
      .error () := rfl

/-- C9 amended: on histories whose array elements are all null or numeric,
the returned record is fully defined, holding exactly the three real-valued
fields `annualizedReturn`, `sharpeRatio` and `totalReturn` (over exact real
arithmetic every computed value is a real number and the source's
non-finite-to-zero guard is the identity); an input with a non-numeric
element raises instead. -/
theorem C9_fully_defined (el tl : List PyVal)
    (h1 : el.all numOrNull = true) (h2 : tl.all numOrNull = true) :
    ∃ a s t : ℝ, compute_metrics ⟨some el, some tl⟩ =
      .ok { annualizedReturn := a, sharpeRatio := s, totalReturn := t } :=
  ⟨_, _, _, compute_metrics_ok el tl h1 h2⟩

theorem C9_fully_defined_witness :
    ([PyVal.num 2, PyVal.num 3].all numOrNull = true ∧
      [PyVal.num 0, PyVal.num 1].all numOrNull = true) ∧
    ∃ a s t : ℝ,
      compute_metrics ⟨some [PyVal.num 2, PyVal.num 3], some [PyVal.num 0, PyVal.num 1]⟩ =
        .ok { annualizedReturn := a, sharpeRatio := s, totalReturn := t } :=
  ⟨⟨by decide, by decide⟩, C9_fully_defined _ _ (by decide) (by decide)⟩

/-- Modelled from the claim's alignment semantics (for comparison with the
source): the two original arrays are aligned positionally first — element
`i` of equities with element `i` of timestamps of the original input — and
entries are dropped pairwise when either side is null, with no independent
per-array null filtering before alignment.  Everything after the coercions
is the unchanged numeric core. -/
noncomputable def computeMetricsSpecAligned (h : History) : Except Unit MetricsResult :=
  match h.equity, h.timestamp with
  | some el, some tl => do
    let kept := (el.zip tl).filter fun p => !p.1.isNull && !p.2.isNull
    let re ← mapExcept (fun p => pyFloat p.1) kept
    let rt ← mapExcept (fun p => pyInt p.2) kept
    pure (computeMetricsNum re rt)
  | _, _ => .ok zeroMetrics

/-- A history with a null in the equity array only: the source pairs the
null-dropped equities `[100, 110, 121]` with the first three timestamps
`[100, 0, 50]`, while index-aligned pairing would use `[0, 50, 200]`. -/
def histShift : History :=
  ⟨some [PyVal.null, PyVal.num 100, PyVal.num 110, PyVal.num 121],
    some [PyVal.num 100, PyVal.num 0, PyVal.num 50, PyVal.num 200]⟩

theorem histShift_ann_code :
    (computeMetricsNum [100, 110, 121] [100, 0, 50]).annualizedReturn = 0 := by
  rw [metrics_of_pass _ _ (by decide) (by decide) (by decide)]
  show annualizedR _ _ = 0
  rw [annualizedR, if_neg]
  norm_num [daysQ, survTs, pairsOf, alignedOf, List.getLastI, List.headI]

theorem histShift_ann_spec :
    0 < (computeMetricsNum [100, 110, 121] [0, 50, 200]).annualizedReturn := by
  rw [metrics_of_pass _ _ (by decide) (by decide) (by decide)]
  show 0 < annualizedR _ _
  have hd : 0 < daysQ [100, 110, 121] [0, 50, 200] := by
    norm_num [daysQ, survTs, pairsOf, alignedOf, List.getLastI, List.headI]
  have hy : 0 < yearsQ [100, 110, 121] [0, 50, 200] := div_pos hd (by norm_num)
  have hbase : ((survEq [100, 110, 121] [0, 50, 200]).getLastI /
      (survEq [100, 110, 121] [0, 50, 200]).headI : ℚ) = 121 / 100 := by
    norm_num [survEq, pairsOf, alignedOf, List.getLastI, List.headI]
  rw [annualizedR, if_pos hd, if_pos hy, hbase]
  have h1 : (1 : ℝ) < ((121 / 100 : ℚ) : ℝ) ^
      ((1 : ℝ) / ((yearsQ [100, 110, 121] [0, 50, 200] : ℚ) : ℝ)) := by
    rw [Real.one_lt_rpow_iff_of_pos (by norm_num)]
    refine Or.inl ⟨by norm_num, ?_⟩
    exact one_div_pos.mpr (by exact_mod_cast hy)
  linarith

/-- C4 counterexample: on `histShift` the source's result differs from the
index-aligned model's result — the null present only in the equity array
shifts the pairing of every later element, changing `annualizedReturn`. -/
theorem C4_counterexample :
    compute_metrics histShift ≠ computeMetricsSpecAligned histShift := by
  have hL : compute_metrics histShift =
      .ok (computeMetricsNum [100, 110, 121] [100, 0, 50]) := rfl
  have hR : computeMetricsSpecAligned histShift =
      .ok (computeMetricsNum [100, 110, 121] [0, 50, 200]) := rfl
  rw [hL, hR]
  intro hEq
  have h2 := Except.ok.inj hEq
  have h3 := congrArg MetricsResult.annualizedReturn h2
  rw [histShift_ann_code] at h3
  exact absurd h3.symm (ne_of_gt histShift_ann_spec)

/-- C4 amended: the arrays are aligned only after the independent per-array
null filtering and coercion — the aligned sequence pairs element `i` of the
null-dropped equities with element `i` of the null-dropped timestamps (both
truncated to the common prefix length), so a null in just one array shifts
the pairing of later elements relative to the original input. -/
theorem C4_aligned_pairing (re : List ℚ) (rt : List ℤ) (i : ℕ)
    (hre : i < re.length) (hrt : i < rt.length)
    (hal : i < (alignedOf re rt).length) :
    (alignedOf re rt).get ⟨i, hal⟩ = (re.get ⟨i, hre⟩, rt.get ⟨i, hrt⟩) := by
  simp only [alignedOf, List.get_eq_getElem, List.getElem_zip, List.getElem_take]

theorem C4_aligned_pairing_witness :
    (0 < ([5, 6] : List ℚ).length ∧ 0 < ([7] : List ℤ).length ∧
      0 < (alignedOf [5, 6] [7]).length) ∧
    (alignedOf [5, 6] [7]).get ⟨0, by decide⟩ =
      (([5, 6] : List ℚ).get ⟨0, by decide⟩, ([7] : List ℤ).get ⟨0, by decide⟩) :=
  ⟨⟨by decide, by decide, by decide⟩,
    C4_aligned_pairing [5, 6] [7] 0 (by decide) (by decide) (by decide)⟩

/-! ### Scale invariance (C10) -/

/-- Multiply a non-null numeric equity entry by a constant; nulls and
non-numeric entries are unchanged. -/
def scaleVal (c : ℚ) : PyVal → PyVal
  | .num q => .num (c * q)
  | v => v

/-- The history with every non-null equity value multiplied by `c`,
timestamps untouched. -/
def scaleHist (c : ℚ) (h : History) : History :=
  ⟨h.equity.map (List.map (scaleVal c)), h.timestamp⟩

theorem pairsOf_scale (c : ℚ) (hc : 0 < c) (re : List ℚ) (rt : List ℤ) :
    pairsOf (re.map fun x => c * x) rt =
      (pairsOf re rt).map fun p => (c * p.1, p.2) := by
  unfold pairsOf alignedOf
  rw [List.length_map, ← List.map_take, List.zip_map_left, List.filter_map]
  have hpred : ∀ p : ℚ × ℤ,
      ((fun p : ℚ × ℤ => decide (0 < p.1)) ∘ Prod.map (fun x => c * x) id) p
        = decide (0 < p.1) := by
    intro p
    show decide (0 < c * p.1) = decide (0 < p.1)
    rw [decide_eq_decide]
    exact mul_pos_iff_of_pos_left hc
  rw [List.filter_congr fun p _ => hpred p]
  rfl

theorem survEq_scale (c : ℚ) (hc : 0 < c) (re : List ℚ) (rt : List ℤ) :
    survEq (re.map fun x => c * x) rt = (survEq re rt).map fun x => c * x := by
  unfold survEq
  rw [pairsOf_scale c hc, List.map_map, List.map_map]
  rfl

theorem survTs_scale (c : ℚ) (hc : 0 < c) (re : List ℚ) (rt : List ℤ) :
    survTs (re.map fun x => c * x) rt = survTs re rt := by
  unfold survTs
  rw [pairsOf_scale c hc, List.map_map]
  rfl

theorem headI_scale (c : ℚ) (l : List ℚ) :
    (l.map fun x => c * x).headI = c * l.headI := by
  cases l with
  | nil => exact (mul_zero c).symm
  | cons a t => rfl

theorem getLastI_scale (c : ℚ) (l : List ℚ) :
    (l.map fun x => c * x).getLastI = c * l.getLastI := by
  rw [List.getLastI_eq_getLast?, List.getLastI_eq_getLast?, List.getLast?_map]
  cases l.getLast? with
  | none => exact (mul_zero c).symm
  | some a => rfl

theorem returnsOf_scale (c : ℚ) (hc : 0 < c) (re : List ℚ) (rt : List ℤ) :
    returnsOf (re.map fun x => c * x) rt = returnsOf re rt := by
  unfold returnsOf
  rw [survEq_scale c hc, ← List.map_tail, List.zip_map, List.map_map]
  apply List.map_congr_left
  intro p hp
  obtain ⟨a, b⟩ := p
  have ha : a ∈ survEq re rt := (List.of_mem_zip hp).1
  show (c * b - c * a) / (c * a) = (b - a) / a
  rw [← mul_sub, mul_div_mul_left _ _ (ne_of_gt hc)]

theorem totalReturnQ_scale (c : ℚ) (hc : 0 < c) (re : List ℚ) (rt : List ℤ) :
    totalReturnQ (re.map fun x => c * x) rt = totalReturnQ re rt := by
  unfold totalReturnQ
  rw [survEq_scale c hc, headI_scale, getLastI_scale,
    mul_div_mul_left _ _ (ne_of_gt hc)]

theorem daysQ_scale (c : ℚ) (hc : 0 < c) (re : List ℚ) (rt : List ℤ) :
    daysQ (re.map fun x => c * x) rt = daysQ re rt := by
  unfold daysQ
  rw [survTs_scale c hc]

theorem annualizedR_scale (c : ℚ) (hc : 0 < c) (re : List ℚ) (rt : List ℤ) :
    annualizedR (re.map fun x => c * x) rt = annualizedR re rt := by
  unfold annualizedR yearsQ
  rw [daysQ_scale c hc, survEq_scale c hc, headI_scale, getLastI_scale,
    mul_div_mul_left _ _ (ne_of_gt hc)]

theorem meanQ_scale (c : ℚ) (hc : 0 < c) (re : List ℚ) (rt : List ℤ) :
    meanQ (re.map fun x => c * x) rt = meanQ re rt := by
  unfold meanQ
  rw [returnsOf_scale c hc]

theorem varianceQ_scale (c : ℚ) (hc : 0 < c) (re : List ℚ) (rt : List ℤ) :
    varianceQ (re.map fun x => c * x) rt = varianceQ re rt := by
  unfold varianceQ meanQ
  rw [returnsOf_scale c hc]

theorem sharpeR_scale (c : ℚ) (hc : 0 < c) (re : List ℚ) (rt : List ℤ) :
    sharpeR (re.map fun x => c * x) rt = sharpeR re rt := by
  unfold sharpeR stdDevR
  rw [varianceQ_scale c hc, meanQ_scale c hc]

theorem computeMetricsNum_scale (c : ℚ) (hc : 0 < c) (re : List ℚ) (rt : List ℤ) :
    computeMetricsNum (re.map fun x => c * x) rt = computeMetricsNum re rt := by
  unfold computeMetricsNum
  rw [List.length_map, pairsOf_scale c hc, List.length_map,
    returnsOf_scale c hc, annualizedR_scale c hc, sharpeR_scale c hc,
    totalReturnQ_scale c hc]

theorem mapExcept_pyFloat_scale (c : ℚ) (l : List PyVal) :
    mapExcept pyFloat (l.map (scaleVal c)) =
      (mapExcept pyFloat l).map (List.map fun x => c * x) := by
  induction l with
  | nil => rfl
  | cons v t ih =>
    cases v with
    | null => rfl
    | nonNum => rfl
    | num q =>
      show (do
          let b ← Except.ok (c * q)
          let rest ← mapExcept pyFloat (t.map (scaleVal c))
          Except.ok (b :: rest)) =
        Except.map (List.map fun x => c * x) (do
          let b ← Except.ok q
          let rest ← mapExcept pyFloat t
          Except.ok (b :: rest))
      rw [ih]
      cases mapExcept pyFloat t with
      | ok l2 => rfl
      | error e => rfl

theorem floatList_scale (c : ℚ) (l : List PyVal) :
    floatList (l.map (scaleVal c)) =
      (floatList l).map (List.map fun x => c * x) := by
  unfold floatList
  rw [List.filter_map]
  have hpred : ∀ v : PyVal,
      ((fun v : PyVal => !v.isNull) ∘ scaleVal c) v = !v.isNull := by
    intro v
    cases v <;> rfl
  rw [List.filter_congr fun v _ => hpred v, mapExcept_pyFloat_scale]

/-- Unfolding of `compute_metrics` on a history with both fields present. -/
theorem compute_metrics_some_eq (el tl : List PyVal) :
    compute_metrics ⟨some el, some tl⟩ = (do
      let re ← floatList el
      let rt ← intList tl
      pure (computeMetricsNum re rt) : Except Unit MetricsResult) := rfl

/-- C10: over exact arithmetic, multiplying every non-null equity value by a
positive constant leaves the result of `compute_metrics` unchanged — the
`equity > 0` filter keeps the same pairs and all three metrics depend only
on ratios of equity values. -/
theorem C10_scale_invariance (h : History) (c : ℚ) (hc : 0 < c) :
    compute_metrics (scaleHist c h) = compute_metrics h := by
  obtain ⟨eo, tso⟩ := h
  cases eo with
  | none => rfl
  | some el =>
    cases tso with
    | none => rfl
    | some tl =>
      show compute_metrics ⟨some (el.map (scaleVal c)), some tl⟩ =
        compute_metrics ⟨some el, some tl⟩
      rw [compute_metrics_some_eq, compute_metrics_some_eq]
      cases hfe : floatList el with
      | error e =>
        have h1 : floatList (el.map (scaleVal c)) = .error e := by
          rw [floatList_scale, hfe]
          rfl
        rw [h1]
      | ok re =>
        have h1 : floatList (el.map (scaleVal c)) = .ok (re.map fun x => c * x) := by
          rw [floatList_scale, hfe]
          rfl
        rw [h1]
        cases intList tl with
        | error e =>
          show (Except.error e : Except Unit MetricsResult) = Except.error e
          rfl
        | ok rt =>
          show Except.ok (computeMetricsNum (re.map fun x => c * x) rt) =
            Except.ok (computeMetricsNum re rt)
          exact congrArg Except.ok (computeMetricsNum_scale c hc re rt)

theorem C10_scale_invariance_witness :
    (0 : ℚ) < 2 ∧
      compute_metrics (scaleHist 2
        ⟨some [PyVal.num 100, PyVal.num 110, PyVal.num 121],
          some [PyVal.num 0, PyVal.num 86400, PyVal.num 172800]⟩) =
      compute_metrics
        ⟨some [PyVal.num 100, PyVal.num 110, PyVal.num 121],
          some [PyVal.num 0, PyVal.num 86400, PyVal.num 172800]⟩ :=
  ⟨by norm_num,
    C10_scale_invariance
      ⟨some [PyVal.num 100, PyVal.num 110, PyVal.num 121],
        some [PyVal.num 0, PyVal.num 86400, PyVal.num 172800]⟩ 2 (by norm_num)⟩
